import Mathlib

/-!
Shallow embedding of the fluxion `out-prometheus` plugin (`main.go`).

Modelling conventions:
* An event record (`message.Event.Record`, a msgpack-decoded tree) is the
  inductive `JValue`.  Numbers (`float64`) are modelled as rationals `ℚ`;
  no claim depends on floating-point rounding.
* A go-scan path expression is modelled pre-tokenized as its list of field
  segments (`ScanPath`); the empty Go path string `""` is the empty list `[]`.
  go-scan itself (github.com/mattn/go-scan) is an external dependency; its
  `ScanTree` is modelled by `scanTree`: a missing field yields an error whose
  message begins with "invalid path", a present field of the wrong target
  type yields a different ("invalid type") error, matching the error
  taxonomy that `Metric.scan` in `main.go` distinguishes by message prefix.
* A prometheus `GaugeVec`/`CounterVec` is a `Series`: a finite association
  of label-value combinations to the current number, with `Set`/`Add`/`Inc`
  modelled by `Series.set`/`Series.add`/`Series.inc`; an untouched
  combination reads as 0, which is also what the prometheus client reports
  for a freshly created child.
* `env.Log.Error(err)` in the dispatcher is modelled by appending the error
  to a `logged` list carried in the plugin state.
-/

/-- A decoded event record tree. -/
inductive JValue where
  | vNull
  | vBool (b : Bool)
  | vNum (q : ℚ)
  | vStr (s : String)
  | vArr (elems : List JValue)
  | vObj (fields : List (String × JValue))

/-- Errors produced inside a handler update.  `invalidPath` and
`invalidType` model the two kinds of go-scan resolution failure;
`negativeCounter` models `errors.New("Counter value must be >=0")`
from `Counter.HandleEvent`. -/
inductive Err where
  | invalidPath (seg : String)
  | invalidType (seg : String)
  | negativeCounter
deriving DecidableEq

/-- The Go `err.Error()` message of each modelled error. -/
def Err.message : Err → String
  | .invalidPath seg => "invalid path: " ++ seg
  | .invalidType seg => "invalid type: " ++ seg
  | .negativeCounter => "Counter value must be >=0"

/-- Executable character-list prefix test, modelling `strings.HasPrefix`
on the underlying characters. -/
def strPre : List Char → List Char → Bool
  | [], _ => true
  | _ :: _, [] => false
  | a :: as, b :: bs => a = b && strPre as bs

/-- Byte-wise lexicographic `≤` on strings (as used by Go `sort.Strings`;
UTF-8 byte order coincides with code-point order). -/
def charListLe : List Char → List Char → Bool
  | [], _ => true
  | _ :: _, [] => false
  | a :: as, b :: bs =>
    if a.toNat < b.toNat then true
    else if b.toNat < a.toNat then false
    else charListLe as bs

def strLe (a b : String) : Bool := charListLe a.data b.data

/-- A pre-tokenized go-scan path expression. -/
abbrev ScanPath := List String

def getField : List (String × JValue) → String → Option JValue
  | [], _ => none
  | (k, v) :: rest, key => if k = key then some v else getField rest key

/-- Walk the record along the path segments; a segment that cannot be
followed is the go-scan "invalid path" condition. -/
def resolveSegs : ScanPath → JValue → Except Err JValue
  | [], v => .ok v
  | k :: ks, .vObj fields =>
    match getField fields k with
    | some v => resolveSegs ks v
    | none => .error (.invalidPath k)
  | k :: _, _ => .error (.invalidPath k)

/-- Model of `scan.ScanTree(record, path, &target)`: resolve the path, then
convert the found value to the target type (`conv` plays the role of the
reflection-based assignment; it fails exactly on a type mismatch). -/
def scanTree {α : Type} (conv : JValue → Option α) (rec : JValue) (p : ScanPath) :
    Except Err α :=
  match resolveSegs p rec with
  | .error e => .error e
  | .ok v =>
    match conv v with
    | some a => .ok a
    | none => .error (.invalidType (String.intercalate "/" p))

/-- Conversion for a `string` scan target. -/
def asString : JValue → Option String
  | .vStr s => some s
  | _ => none

/-- Conversion for a `float64` scan target. -/
def asFloat : JValue → Option ℚ
  | .vNum q => some q
  | _ => none

/-- Conversion for an untyped (`interface{}`) scan target: always succeeds. -/
def asAny : JValue → Option JValue := fun v => some v

/-- The part of `message.Event` the plugin reads. -/
structure Event where
  record : JValue

inductive MetricType where
  | gauge
  | counter
deriving DecidableEq

/-- The three validated count modes plus the unset zero value `""`
(normalized to `value` by `Metric.New`). -/
inductive CountMode where
  | unset
  | value
  | exist
  | non_exist
deriving DecidableEq

/-- The `Metric` config struct of `main.go`. -/
structure Metric where
  type : MetricType
  help : String
  value : ScanPath
  countMode : CountMode
  labels : List (String × ScanPath)
  labelKeys : List String

def sortStrings (l : List String) : List String :=
  List.insertionSort (fun a b => strLe a b = true) l

/-- The mutation phase of `Metric.New` (main.go lines 61-67): default the
count mode and compute `labelKeys` as the sorted keys of `Labels`, once,
before any event is handled. -/
def Metric.New (m : Metric) : Metric :=
  { m with
    countMode := if m.countMode = CountMode.unset then CountMode.value else m.countMode
    labelKeys := sortStrings (m.labels.map Prod.fst) }

/-- Go map indexing `m.Labels[key]` (zero value on a missing key; never hit
for keys drawn from `labelKeys`). -/
def lookupLabel (labels : List (String × ScanPath)) (k : String) : ScanPath :=
  match labels.find? (fun p => p.1 = k) with
  | some p => p.2
  | none => []

/-- The `(m *Metric).scan` method: run `ScanTree` and swallow exactly the
errors whose message begins with "invalid path", leaving the target at its
zero value `z`. -/
def Metric.scan {α : Type} (conv : JValue → Option α) (z : α) (ev : Event)
    (p : ScanPath) : Except Err α :=
  match scanTree conv ev.record p with
  | .ok a => .ok a
  | .error e => if strPre "invalid path".data e.message.data then .ok z else .error e

/-- The loop body of `(m *Metric).labelValues`, iterating the given keys. -/
def labelValuesGo (m : Metric) (ev : Event) : List String → Except Err (List String)
  | [] => .ok []
  | k :: ks =>
    match Metric.scan asString "" ev (lookupLabel m.labels k) with
    | .error e => .error e
    | .ok s =>
      match labelValuesGo m ev ks with
      | .error e => .error e
      | .ok rest => .ok (s :: rest)

/-- The `(m *Metric).labelValues` method: one resolved string per key of
`labelKeys`, in `labelKeys` order. -/
def Metric.labelValues (m : Metric) (ev : Event) : Except Err (List String) :=
  labelValuesGo m ev m.labelKeys

/-- An ordered tuple of label values identifying one data point. -/
abbrev LabelCombo := List String

/-- One metric vector's state: current value per observed label combination. -/
abbrev Series := List (LabelCombo × ℚ)

/-- Current value for a combination (0 for an untouched child, as the
prometheus client reports). -/
def Series.get : Series → LabelCombo → ℚ
  | [], _ => 0
  | (k, x) :: rest, lv => if k = lv then x else Series.get rest lv

/-- Overwrite semantics of `prometheus.Gauge.Set` on one combination. -/
def Series.set : Series → LabelCombo → ℚ → Series
  | [], lv, v => [(lv, v)]
  | (k, x) :: rest, lv, v =>
    if k = lv then (lv, v) :: rest else (k, x) :: Series.set rest lv v

/-- Additive semantics of `prometheus.Counter.Add`. -/
def Series.add (s : Series) (lv : LabelCombo) (v : ℚ) : Series :=
  s.set lv (s.get lv + v)

/-- `prometheus.Counter.Inc` is `Add 1`. -/
def Series.inc (s : Series) (lv : LabelCombo) : Series :=
  s.add lv 1

/-- Sum of all stored values of a series (to count accumulated increments). -/
def Series.total (s : Series) : ℚ :=
  (s.map Prod.snd).sum

/-- The `(g *Gauge).HandleEvent` method: resolve the value (soft-miss gives
the float zero value 0), resolve labels, then `Set`. -/
def Gauge.HandleEvent (m : Metric) (s : Series) (ev : Event) : Except Err Series :=
  match Metric.scan asFloat 0 ev m.value with
  | .error e => .error e
  | .ok v =>
    match Metric.labelValues m ev with
    | .error e => .error e
    | .ok lvals => .ok (s.set lvals v)

/-- The `(g *Counter).HandleEvent` method: labels first, then branch on an
empty value path, on `count_mode = value`, and otherwise on the raw
(unswallowed) untyped `ScanTree` outcome for `exist` / `non_exist`. -/
def Counter.HandleEvent (m : Metric) (s : Series) (ev : Event) : Except Err Series :=
  match Metric.labelValues m ev with
  | .error e => .error e
  | .ok lvals =>
    if m.value = [] then .ok (s.inc lvals)
    else if m.countMode = CountMode.value then
      match Metric.scan asFloat 0 ev m.value with
      | .error e => .error e
      | .ok v =>
        if v < 0 then .error Err.negativeCounter
        else .ok (s.add lvals v)
    else
      match scanTree asAny ev.record m.value with
      | .ok _ =>
        if m.countMode = CountMode.exist then .ok (s.inc lvals) else .ok s
      | .error _ =>
        if m.countMode = CountMode.non_exist then .ok (s.inc lvals) else .ok s

/-- The closed set of handler variants (`Gauge`, `Counter`), each carrying
its metric definition and its bound series state. -/
inductive Handler where
  | gauge (m : Metric) (s : Series)
  | counter (m : Metric) (s : Series)

def newGauge (m : Metric) : Handler := Handler.gauge m []

def newCounter (m : Metric) : Handler := Handler.counter m []

/-- The type switch of `Metric.New` (main.go lines 69-75). -/
def newHandler (m : Metric) : Handler :=
  match (Metric.New m).type with
  | .gauge => newGauge (Metric.New m)
  | .counter => newCounter (Metric.New m)

def Handler.metric : Handler → Metric
  | .gauge m _ => m
  | .counter m _ => m

def Handler.series : Handler → Series
  | .gauge _ s => s
  | .counter _ s => s

/-- Dynamic dispatch of `Handler.HandleEvent`; on success the series state
advances, the metric definition is untouched. -/
def Handler.handleEvent : Handler → Event → Except Err Handler
  | .gauge m s, ev =>
    match Gauge.HandleEvent m s ev with
    | .ok s2 => .ok (.gauge m s2)
    | .error e => .error e
  | .counter m s, ev =>
    match Counter.HandleEvent m s ev with
    | .ok s2 => .ok (.counter m s2)
    | .error e => .error e

/-- The plugin state the dispatcher uses: the constructed handlers plus the
log sink written by `p.env.Log.Error`. -/
structure OutPrometheus where
  handlers : List Handler
  logged : List Err

/-- The loop body of `(p *OutPrometheus).Encode`: each handler is invoked;
a failing handler keeps its old state and its error is collected for the
log; the loop never aborts. -/
def encodeGo (ev : Event) : List Handler → List Handler × List Err
  | [] => ([], [])
  | h :: hs =>
    match Handler.handleEvent h ev with
    | .ok h2 =>
      let rest := encodeGo ev hs
      (h2 :: rest.1, rest.2)
    | .error e =>
      let rest := encodeGo ev hs
      (h :: rest.1, e :: rest.2)

/-- The `(p *OutPrometheus).Encode` method: fan the event out to every
handler, log per-handler errors, and always report success (`nil` error,
modelled as `none`). -/
def OutPrometheus.Encode (p : OutPrometheus) (ev : Event) :
    OutPrometheus × Option Err :=
  let res := encodeGo ev p.handlers
  ({ handlers := res.1, logged := p.logged ++ res.2 }, none)

/-- One counter handler driven by a stream of dispatched events (each step
is what `Encode` does to that handler: keep the old state on error). -/
def runCounter (m : Metric) : Series → List Event → Series
  | s, [] => s
  | s, ev :: evs =>
    match Counter.HandleEvent m s ev with
    | .ok s2 => runCounter m s2 evs
    | .error _ => runCounter m s evs

/-- Whether the untyped scan of the metric's value path succeeds on an
event (the `exist` trigger). -/
def scanSucceeds (m : Metric) (ev : Event) : Bool :=
  match scanTree asAny ev.record m.value with
  | .ok _ => true
  | .error _ => false

/-! Concrete metric definitions and events used to instantiate the general
theorems below on closed inputs. -/

def exC1Metric : Metric :=
  ⟨.gauge, "", [], .unset, [("b", ["x"]), ("a", ["y"])], []⟩

def exC1Event : Event := ⟨.vObj [("x", .vStr "vx"), ("y", .vStr "vy")]⟩

def exC3Metric : Metric := ⟨.gauge, "", ["cpu", "load"], .value, [], []⟩

def exC3EventA : Event := ⟨.vObj [("cpu", .vObj [("load", .vNum (7/2))])]⟩

def exC3EventB : Event := ⟨.vObj [("cpu", .vObj [("load", .vNum 1)])]⟩

def exC4Metric : Metric := ⟨.counter, "", ["n"], .value, [], []⟩

def exC4EventNeg : Event := ⟨.vObj [("n", .vNum (-1))]⟩

def exC4EventPos : Event := ⟨.vObj [("n", .vNum 2)]⟩

def exC5Metric : Metric := ⟨.counter, "", [], .exist, [], []⟩

def exC5Event : Event := ⟨.vObj [("anything", .vNum 0)]⟩

def exC6Metric : Metric := ⟨.counter, "", ["flag"], .exist, [], []⟩

def exC6EventFalse : Event := ⟨.vObj [("flag", .vBool false)]⟩

def exC6EventAbsent : Event := ⟨.vObj []⟩

def exC7Metric : Metric := ⟨.counter, "", ["n"], .value, [], []⟩

def exC7Events : List Event :=
  [⟨.vObj [("n", .vNum 2)]⟩, ⟨.vObj []⟩, ⟨.vObj [("n", .vBool true)]⟩]

def exC8Metric : Metric :=
  ⟨.gauge, "", [], .value, [("l", ["missing"])], ["l"]⟩

def exC8Event : Event := ⟨.vObj [("num", .vNum 3)]⟩

def exC9MetricOk : Metric := ⟨.counter, "", [], .value, [], []⟩

def exC9MetricBad : Metric := ⟨.counter, "", ["n"], .value, [], []⟩

def exC9Event : Event := ⟨.vObj [("n", .vNum (-1))]⟩

def exC9Plugin : OutPrometheus :=
  ⟨[Handler.counter exC9MetricOk [], Handler.counter exC9MetricBad [],
    Handler.counter exC9MetricOk []], []⟩

def exC10Metric : Metric := ⟨.gauge, "", ["cpu", "load"], .value, [], []⟩

def exC10Event : Event := ⟨.vObj [("other", .vNum 5)]⟩

/-! Helper lemmas about the string order and the prefix test. -/

theorem charListLe_total : ∀ as bs : List Char,
    charListLe as bs = true ∨ charListLe bs as = true := by
  intro as
  induction as with
  | nil => intro bs; left; rfl
  | cons a as ih =>
    intro bs
    cases bs with
    | nil => right; rfl
    | cons b bs =>
      rcases Nat.lt_trichotomy a.toNat b.toNat with h | h | h
      · left; simp [charListLe, h]
      · have h1 : ¬ a.toNat < b.toNat := by omega
        have h2 : ¬ b.toNat < a.toNat := by omega
        rcases ih bs with h3 | h3
        · left; simp [charListLe, h1, h2, h3]
        · right; simp [charListLe, h1, h2, h3]
      · right; simp [charListLe, h]

theorem charListLe_trans : ∀ as bs cs : List Char,
    charListLe as bs = true → charListLe bs cs = true → charListLe as cs = true := by
  intro as
  induction as with
  | nil => intro bs cs _ _; rfl
  | cons a as ih =>
    intro bs cs hab hbc
    cases bs with
    | nil => simp [charListLe] at hab
    | cons b bs =>
      cases cs with
      | nil => simp [charListLe] at hbc
      | cons c cs =>
        simp only [charListLe] at hab hbc ⊢
        by_cases h1 : a.toNat < b.toNat
        · by_cases h2 : b.toNat < c.toNat
          · rw [if_pos (show a.toNat < c.toNat by omega)]
          · by_cases h4 : c.toNat < b.toNat
            · rw [if_neg h2, if_pos h4] at hbc; simp at hbc
            · rw [if_pos (show a.toNat < c.toNat by omega)]
        · by_cases h3 : b.toNat < a.toNat
          · rw [if_neg h1, if_pos h3] at hab; simp at hab
          · rw [if_neg h1, if_neg h3] at hab
            by_cases h2 : b.toNat < c.toNat
            · rw [if_pos (show a.toNat < c.toNat by omega)]
            · by_cases h4 : c.toNat < b.toNat
              · rw [if_neg h2, if_pos h4] at hbc; simp at hbc
              · rw [if_neg h2, if_neg h4] at hbc
                rw [if_neg (show ¬ a.toNat < c.toNat by omega),
                  if_neg (show ¬ c.toNat < a.toNat by omega)]
                exact ih bs cs hab hbc

instance : IsTotal String (fun a b => strLe a b = true) :=
  ⟨fun a b => charListLe_total a.data b.data⟩

instance : IsTrans String (fun a b => strLe a b = true) :=
  ⟨fun _ _ _ h1 h2 => charListLe_trans _ _ _ h1 h2⟩

theorem strPre_mono : ∀ as bs cs : List Char,
    strPre as bs = true → strPre as (bs ++ cs) = true := by
  intro as
  induction as with
  | nil => intro bs cs _; rfl
  | cons a as ih =>
    intro bs cs h
    cases bs with
    | nil => simp [strPre] at h
    | cons b bs =>
      simp only [strPre, Bool.and_eq_true, decide_eq_true_eq] at h
      simp only [List.cons_append, strPre, Bool.and_eq_true, decide_eq_true_eq]
      exact ⟨h.1, ih bs cs h.2⟩

theorem strPre_stable : ∀ as bs cs : List Char, as.length ≤ bs.length →
    strPre as (bs ++ cs) = strPre as bs := by
  intro as
  induction as with
  | nil => intro bs cs _; rfl
  | cons a as ih =>
    intro bs cs hlen
    cases bs with
    | nil => simp at hlen
    | cons b bs =>
      simp only [List.length_cons, Nat.add_le_add_iff_right] at hlen
      simp only [List.cons_append, strPre, List.append_eq]
      rw [ih bs cs hlen]

/-- The soft-swallow test of `Metric.scan` holds exactly for the "invalid
path" (path absent) errors among the modelled error messages. -/
theorem soft_iff_invalidPath (e : Err) :
    strPre "invalid path".data e.message.data = true ↔ ∃ seg, e = Err.invalidPath seg := by
  cases e with
  | invalidPath seg =>
    constructor
    · intro _; exact ⟨seg, rfl⟩
    · intro _
      show strPre "invalid path".data (("invalid path: " ++ seg).data) = true
      rw [String.data_append]
      exact strPre_mono _ _ _ (by decide)
  | invalidType seg =>
    constructor
    · intro h
      exfalso
      rw [show (Err.invalidType seg).message = "invalid type: " ++ seg from rfl,
        String.data_append, strPre_stable _ _ _ (by decide)] at h
      simp [show strPre "invalid path".data "invalid type: ".data = false by decide] at h
    · rintro ⟨seg2, h⟩; cases h
  | negativeCounter =>
    constructor
    · intro h
      simp [show strPre "invalid path".data (Err.negativeCounter).message.data = false
        by decide] at h
    · rintro ⟨seg2, h⟩; cases h

/-! Helper lemmas about series state. -/

theorem Series.get_set (s : Series) (lv : LabelCombo) (v : ℚ) :
    (s.set lv v).get lv = v := by
  induction s with
  | nil => simp [Series.set, Series.get]
  | cons p rest ih =>
    obtain ⟨k, x⟩ := p
    by_cases h : k = lv
    · simp [Series.set, Series.get, h]
    · simp [Series.set, Series.get, h, ih]

theorem Series.total_set (s : Series) (lv : LabelCombo) (v : ℚ) :
    (s.set lv v).total = s.total - s.get lv + v := by
  induction s with
  | nil => simp [Series.set, Series.get, Series.total]
  | cons p rest ih =>
    obtain ⟨k, x⟩ := p
    by_cases h : k = lv
    · subst h
      have hset : Series.set ((k, x) :: rest) k v = (k, v) :: rest := by
        simp [Series.set]
      have hget : Series.get ((k, x) :: rest) k = x := by
        simp [Series.get]
      rw [hset, hget]
      simp only [Series.total, List.map_cons, List.sum_cons]
      ring
    · have hset : Series.set ((k, x) :: rest) lv v = (k, x) :: Series.set rest lv v := by
        simp [Series.set, h]
      have hget : Series.get ((k, x) :: rest) lv = Series.get rest lv := by
        simp [Series.get, h]
      rw [hset, hget]
      simp only [Series.total, List.map_cons, List.sum_cons] at ih ⊢
      rw [ih]
      ring

theorem Series.total_add (s : Series) (lv : LabelCombo) (v : ℚ) :
    (s.add lv v).total = s.total + v := by
  rw [Series.add, Series.total_set]; ring

theorem Series.get_add (s : Series) (lv : LabelCombo) (v : ℚ) :
    (s.add lv v).get lv = s.get lv + v := by
  rw [Series.add, Series.get_set]

theorem Series.total_inc (s : Series) (lv : LabelCombo) :
    (s.inc lv).total = s.total + 1 := by
  rw [Series.inc, Series.total_add]

/-! Helper lemmas about label resolution. -/

theorem labelValuesGo_length (m : Metric) (ev : Event) :
    ∀ ks vs, labelValuesGo m ev ks = .ok vs → vs.length = ks.length := by
  intro ks
  induction ks with
  | nil =>
    intro vs h
    simp only [labelValuesGo, Except.ok.injEq] at h
    rw [← h]
  | cons k ks ih =>
    intro vs h
    simp only [labelValuesGo] at h
    cases hscan : Metric.scan asString "" ev (lookupLabel m.labels k) with
    | error e => rw [hscan] at h; cases h
    | ok s =>
      rw [hscan] at h
      cases hrest : labelValuesGo m ev ks with
      | error e => rw [hrest] at h; cases h
      | ok rest =>
        rw [hrest] at h
        simp only [Except.ok.injEq] at h
        rw [← h]
        simp [ih rest hrest]

theorem labelValuesGo_get (m : Metric) (ev : Event) :
    ∀ ks vs, labelValuesGo m ev ks = .ok vs →
      ∀ i (hi : i < ks.length) (hv : i < vs.length),
        Metric.scan asString "" ev (lookupLabel m.labels (ks.get ⟨i, hi⟩)) =
          .ok (vs.get ⟨i, hv⟩) := by
  intro ks
  induction ks with
  | nil => intro vs _ i hi; exact absurd hi (by simp)
  | cons k ks ih =>
    intro vs h i hi hv
    simp only [labelValuesGo] at h
    cases hscan : Metric.scan asString "" ev (lookupLabel m.labels k) with
    | error e => rw [hscan] at h; cases h
    | ok s =>
      rw [hscan] at h
      cases hrest : labelValuesGo m ev ks with
      | error e => rw [hrest] at h; cases h
      | ok rest =>
        rw [hrest] at h
        simp only [Except.ok.injEq] at h
        subst h
        cases i with
        | zero => simpa using hscan
        | succ j =>
          simp only [List.length_cons, Nat.succ_lt_succ_iff] at hi
          have hv2 : j < rest.length := by
            simpa [Nat.succ_lt_succ_iff] using hv
          simpa using ih rest hrest j hi hv2

theorem labelValuesGo_ok_iff (m : Metric) (ev : Event) :
    ∀ ks, (∃ vs, labelValuesGo m ev ks = .ok vs) ↔
      ∀ k ∈ ks, ∃ s, Metric.scan asString "" ev (lookupLabel m.labels k) = .ok s := by
  intro ks
  induction ks with
  | nil => simp [labelValuesGo]
  | cons k ks ih =>
    constructor
    · rintro ⟨vs, h⟩ k2 hk2
      simp only [labelValuesGo] at h
      cases hscan : Metric.scan asString "" ev (lookupLabel m.labels k) with
      | error e => rw [hscan] at h; cases h
      | ok s =>
        rw [hscan] at h
        cases hrest : labelValuesGo m ev ks with
        | error e => rw [hrest] at h; cases h
        | ok rest =>
          rcases List.mem_cons.mp hk2 with h2 | h2
          · subst h2; exact ⟨s, hscan⟩
          · exact (ih.mp ⟨rest, hrest⟩) k2 h2
    · intro hall
      obtain ⟨s, hscan⟩ := hall k (List.mem_cons_self k ks)
      obtain ⟨rest, hrest⟩ := ih.mpr (fun k2 hk2 => hall k2 (List.mem_cons_of_mem k hk2))
      refine ⟨s :: rest, ?_⟩
      simp only [labelValuesGo]
      rw [hscan, hrest]

/-! Helper lemmas about scanning. -/

theorem resolveSegs_error : ∀ (p : ScanPath) (r : JValue) (e : Err),
    resolveSegs p r = .error e → ∃ k, e = Err.invalidPath k := by
  intro p
  induction p with
  | nil => intro r e h; cases h
  | cons k ks ih =>
    intro r e h
    cases r with
    | vObj fields =>
      simp only [resolveSegs] at h
      cases hf : getField fields k with
      | some v => rw [hf] at h; exact ih v e h
      | none => rw [hf] at h; cases h; exact ⟨k, rfl⟩
    | vNull => cases h; exact ⟨k, rfl⟩
    | vBool b => cases h; exact ⟨k, rfl⟩
    | vNum q => cases h; exact ⟨k, rfl⟩
    | vStr s => cases h; exact ⟨k, rfl⟩
    | vArr elems => cases h; exact ⟨k, rfl⟩

theorem scanTree_asAny_error (r : JValue) (p : ScanPath) (e : Err) :
    scanTree asAny r p = .error e → ∃ k, e = Err.invalidPath k := by
  intro h
  simp only [scanTree] at h
  cases hres : resolveSegs p r with
  | error e2 =>
    rw [hres] at h
    cases h
    exact resolveSegs_error p r _ hres
  | ok v => rw [hres] at h; simp [asAny] at h

theorem Metric.scan_tree_ok {α : Type} (conv : JValue → Option α) (z : α)
    (ev : Event) (p : ScanPath) (a : α) (h : scanTree conv ev.record p = .ok a) :
    Metric.scan conv z ev p = .ok a := by
  simp only [Metric.scan]
  rw [h]

theorem Metric.scan_tree_error {α : Type} (conv : JValue → Option α) (z : α)
    (ev : Event) (p : ScanPath) (e : Err) (h : scanTree conv ev.record p = .error e) :
    Metric.scan conv z ev p =
      if strPre "invalid path".data e.message.data then .ok z else .error e := by
  simp only [Metric.scan]
  rw [h]

/-! Helper lemmas about the dispatcher. -/

theorem encodeGo_eq (ev : Event) : ∀ hs : List Handler,
    encodeGo ev hs =
      (hs.map (fun h => match Handler.handleEvent h ev with
        | .ok h2 => h2
        | .error _ => h),
       hs.filterMap (fun h => match Handler.handleEvent h ev with
        | .ok _ => none
        | .error e => some e)) := by
  intro hs
  induction hs with
  | nil => rfl
  | cons h hs ih =>
    simp only [encodeGo, List.map_cons, List.filterMap_cons]
    cases hh : Handler.handleEvent h ev with
    | ok h2 => simp [hh, ih]
    | error e => simp [hh, ih]

theorem Handler.handleEvent_metric (hd : Handler) (ev : Event) (h2 : Handler)
    (h : Handler.handleEvent hd ev = .ok h2) : h2.metric = hd.metric := by
  cases hd with
  | gauge m s =>
    simp only [Handler.handleEvent] at h
    cases hg : Gauge.HandleEvent m s ev with
    | ok s2 => rw [hg] at h; cases h; rfl
    | error e => rw [hg] at h; cases h
  | counter m s =>
    simp only [Handler.handleEvent] at h
    cases hg : Counter.HandleEvent m s ev with
    | ok s2 => rw [hg] at h; cases h; rfl
    | error e => rw [hg] at h; cases h

/-! Projections of a count-mode record update (used for the exist /
non_exist comparison, which varies only the count mode). -/

theorem labelValuesGo_labels_congr (m1 m2 : Metric) (ev : Event)
    (h : m1.labels = m2.labels) :
    ∀ ks, labelValuesGo m1 ev ks = labelValuesGo m2 ev ks := by
  intro ks
  induction ks with
  | nil => rfl
  | cons k ks ih =>
    simp only [labelValuesGo, h, ih]

theorem Metric.labelValues_countMode (m : Metric) (c : CountMode) (ev : Event) :
    Metric.labelValues { m with countMode := c } ev = Metric.labelValues m ev := by
  rw [Metric.labelValues, Metric.labelValues]
  exact labelValuesGo_labels_congr { m with countMode := c } m ev rfl m.labelKeys

theorem Metric.value_countMode (m : Metric) (c : CountMode) :
    ({ m with countMode := c } : Metric).value = m.value := rfl

theorem Metric.countMode_set (m : Metric) (c : CountMode) :
    ({ m with countMode := c } : Metric).countMode = c := rfl

/-- Claim C1: for every metric definition, `Metric.New` computes `labelKeys`
as the lexicographically sorted permutation of the keys of the labels map;
event handling never alters a handler's metric definition (so `labelKeys`
stays as computed once at construction, before any event); `labelValues`
returns one resolved string per key, positionally aligned with `labelKeys`;
and resolving the same event twice yields identical label sequences. -/
theorem labelKeys_sorted_aligned_deterministic (m : Metric) :
    List.Sorted (fun a b => strLe a b = true) (Metric.New m).labelKeys
    ∧ List.Perm (Metric.New m).labelKeys (m.labels.map Prod.fst)
    ∧ (∀ (hd : Handler) (ev : Event) (h2 : Handler),
        Handler.handleEvent hd ev = Except.ok h2 →
        (Handler.metric h2).labelKeys = (Handler.metric hd).labelKeys)
    ∧ (∀ (ev : Event) (vs : List String),
        Metric.labelValues (Metric.New m) ev = Except.ok vs →
        vs.length = (Metric.New m).labelKeys.length
        ∧ ∀ i (hi : i < (Metric.New m).labelKeys.length) (hv : i < vs.length),
            Metric.scan asString "" ev
              (lookupLabel (Metric.New m).labels
                ((Metric.New m).labelKeys.get ⟨i, hi⟩)) =
              Except.ok (vs.get ⟨i, hv⟩))
    ∧ (∀ (ev : Event) (vs1 vs2 : List String),
        Metric.labelValues (Metric.New m) ev = Except.ok vs1 →
        Metric.labelValues (Metric.New m) ev = Except.ok vs2 → vs1 = vs2) := by
  refine ⟨List.sorted_insertionSort _ _, List.perm_insertionSort _ _, ?_, ?_, ?_⟩
  · intro hd ev h2 h
    rw [Handler.handleEvent_metric hd ev h2 h]
  · intro ev vs h
    rw [Metric.labelValues] at h
    exact ⟨labelValuesGo_length _ ev _ vs h, labelValuesGo_get _ ev _ vs h⟩
  · intro ev vs1 vs2 h1 h2
    rw [h1] at h2
    injection h2

/-- Witness for C1 on a concrete definition with labels `b ↦ x`, `a ↦ y`:
the keys come out sorted as `["a", "b"]` and the resolved sequence follows
that order. -/
theorem labelKeys_sorted_aligned_deterministic_witness :
    (Metric.New exC1Metric).labelKeys = ["a", "b"]
    ∧ Metric.labelValues (Metric.New exC1Metric) exC1Event = Except.ok ["vy", "vx"]
    ∧ (["vy", "vx"] : List String).length = (Metric.New exC1Metric).labelKeys.length := by
  refine ⟨rfl, rfl, ?_⟩
  exact ((labelKeys_sorted_aligned_deterministic exC1Metric).2.2.2.1 exC1Event
    ["vy", "vx"] rfl).1

/-- Claim C2: dispatching an event invokes every registered handler; a
failing handler keeps its previous state and its error is appended to the
log, the remaining handlers still run, and the dispatch call itself always
reports success. -/
theorem dispatch_isolation (p : OutPrometheus) (ev : Event) :
    (OutPrometheus.Encode p ev).2 = none
    ∧ (OutPrometheus.Encode p ev).1.handlers =
        p.handlers.map (fun h => match Handler.handleEvent h ev with
          | .ok h2 => h2
          | .error _ => h)
    ∧ (OutPrometheus.Encode p ev).1.logged =
        p.logged ++ p.handlers.filterMap (fun h => match Handler.handleEvent h ev with
          | .ok _ => none
          | .error e => some e) := by
  refine ⟨rfl, ?_, ?_⟩
  · show (encodeGo ev p.handlers).1 = _
    rw [encodeGo_eq]
  · show p.logged ++ (encodeGo ev p.handlers).2 = _
    rw [encodeGo_eq]

/-- Claim C3: a gauge update with a resolvable numeric value and resolvable
labels overwrites the series value for that label combination with exactly
the resolved number, regardless of the previous state (not additive). -/
theorem gauge_overwrite (m : Metric) (s : Series) (ev : Event) (v : ℚ)
    (lvals : List String)
    (hv : scanTree asFloat ev.record m.value = Except.ok v)
    (hl : Metric.labelValues m ev = Except.ok lvals) :
    Gauge.HandleEvent m s ev = Except.ok (s.set lvals v)
    ∧ Series.get (s.set lvals v) lvals = v := by
  constructor
  · simp only [Gauge.HandleEvent, Metric.scan_tree_ok asFloat 0 ev m.value v hv, hl]
  · exact Series.get_set s lvals v

/-- Witness for C3: `cpu.load = 7/2` sets the gauge to `7/2`; a second
event with `cpu.load = 1` leaves it at `1`, not `9/2`. -/
theorem gauge_overwrite_witness :
    Gauge.HandleEvent exC3Metric [] exC3EventA = Except.ok (Series.set [] [] (7/2))
    ∧ Gauge.HandleEvent exC3Metric (Series.set [] [] (7/2)) exC3EventB =
        Except.ok (Series.set (Series.set [] [] (7/2)) [] 1)
    ∧ Series.get (Series.set (Series.set [] [] (7/2)) [] 1) [] = 1 :=
  ⟨(gauge_overwrite exC3Metric [] exC3EventA (7/2) [] rfl rfl).1,
   (gauge_overwrite exC3Metric (Series.set [] [] (7/2)) exC3EventB 1 [] rfl rfl).1,
   (gauge_overwrite exC3Metric (Series.set [] [] (7/2)) exC3EventB 1 [] rfl rfl).2⟩

/-- Claim C4: a counter in `value` count mode with a non-empty value path
fails with the validation error on a negative resolved value, producing no
new series state, and adds exactly the resolved value (fractions included)
when it is non-negative. -/
theorem counter_value_mode (m : Metric) (s : Series) (ev : Event) (v : ℚ)
    (lvals : List String)
    (hne : m.value ≠ [])
    (hmode : m.countMode = CountMode.value)
    (hv : Metric.scan asFloat 0 ev m.value = Except.ok v)
    (hl : Metric.labelValues m ev = Except.ok lvals) :
    (v < 0 → Counter.HandleEvent m s ev = Except.error Err.negativeCounter)
    ∧ (0 ≤ v → Counter.HandleEvent m s ev = Except.ok (s.add lvals v)
        ∧ Series.get (s.add lvals v) lvals = Series.get s lvals + v) := by
  have base : Counter.HandleEvent m s ev =
      (if v < 0 then Except.error Err.negativeCounter
       else Except.ok (s.add lvals v)) := by
    simp only [Counter.HandleEvent, hl]
    rw [if_neg hne, if_pos hmode, hv]
  constructor
  · intro hneg
    rw [base, if_pos hneg]
  · intro hpos
    exact ⟨by rw [base, if_neg (not_lt.mpr hpos)], Series.get_add s lvals v⟩

/-- Witness for C4: event `{n: -1}` fails the update; event `{n: 2}` adds
exactly 2. -/
theorem counter_value_mode_witness :
    Counter.HandleEvent exC4Metric [] exC4EventNeg = Except.error Err.negativeCounter
    ∧ Counter.HandleEvent exC4Metric [] exC4EventPos = Except.ok (Series.add [] [] 2) :=
  ⟨(counter_value_mode exC4Metric [] exC4EventNeg (-1) [] (by decide) rfl rfl rfl).1
      (by norm_num),
   ((counter_value_mode exC4Metric [] exC4EventPos 2 [] (by decide) rfl rfl rfl).2
      (by norm_num)).1⟩

/-- Claim C5: a counter whose value path is empty increments the series by
exactly 1 on every event whose labels resolve, regardless of the event's
content and of the configured count mode. -/
theorem counter_empty_value_path (m : Metric) (s : Series) (ev : Event)
    (lvals : List String)
    (hempty : m.value = [])
    (hl : Metric.labelValues m ev = Except.ok lvals) :
    Counter.HandleEvent m s ev = Except.ok (s.inc lvals)
    ∧ Series.get (s.inc lvals) lvals = Series.get s lvals + 1 := by
  constructor
  · simp only [Counter.HandleEvent, hl]
    rw [if_pos hempty]
  · rw [Series.inc]
    exact Series.get_add s lvals 1

/-- Witness for C5 on a counter definition with empty value path (count
mode `exist`, which is ignored): one dispatched event adds exactly 1. -/
theorem counter_empty_value_path_witness :
    Counter.HandleEvent exC5Metric [] exC5Event = Except.ok (Series.inc [] [])
    ∧ Series.get (Series.inc [] []) [] = Series.get ([] : Series) [] + 1 :=
  ⟨(counter_empty_value_path exC5Metric [] exC5Event [] rfl rfl).1,
   (counter_empty_value_path exC5Metric [] exC5Event [] rfl rfl).2⟩

/-- Claim C6: a counter in `exist` mode with a non-empty value path
increments by 1 exactly when the untyped scan of the value path succeeds —
whatever the value is, including `false` or `0` — and on a failed scan it
leaves the series untouched and still reports success. -/
theorem counter_exist_mode (m : Metric) (s : Series) (ev : Event)
    (lvals : List String)
    (hne : m.value ≠ [])
    (hmode : m.countMode = CountMode.exist)
    (hl : Metric.labelValues m ev = Except.ok lvals) :
    (∀ w, scanTree asAny ev.record m.value = Except.ok w →
        Counter.HandleEvent m s ev = Except.ok (s.inc lvals)
        ∧ Series.get (s.inc lvals) lvals = Series.get s lvals + 1)
    ∧ (∀ e, scanTree asAny ev.record m.value = Except.error e →
        Counter.HandleEvent m s ev = Except.ok s) := by
  have hnv : ¬ m.countMode = CountMode.value := by
    rw [hmode]; intro h; cases h
  constructor
  · intro w hw
    constructor
    · simp only [Counter.HandleEvent, hl]
      rw [if_neg hne, if_neg hnv, hw, if_pos hmode]
    · rw [Series.inc]
      exact Series.get_add s lvals 1
  · intro e he
    have hnn : ¬ m.countMode = CountMode.non_exist := by
      rw [hmode]; intro h; cases h
    simp only [Counter.HandleEvent, hl]
    rw [if_neg hne, if_neg hnv, he, if_neg hnn]

/-- Witness for C6: a field explicitly set to `false` still counts as
existing and increments by 1; an absent field does not increment and the
update succeeds. -/
theorem counter_exist_mode_witness :
    Counter.HandleEvent exC6Metric [] exC6EventFalse = Except.ok (Series.inc [] [])
    ∧ Counter.HandleEvent exC6Metric [] exC6EventAbsent = Except.ok [] :=
  ⟨(((counter_exist_mode exC6Metric [] exC6EventFalse [] (by decide) rfl rfl).1)
      (JValue.vBool false) rfl).1,
   ((counter_exist_mode exC6Metric [] exC6EventAbsent [] (by decide) rfl rfl).2)
      (Err.invalidPath "flag") rfl⟩

/-- Shared shape of `Counter.HandleEvent` in the untyped (`exist` /
`non_exist`) branch. -/
theorem counter_untyped_step (m : Metric) (s : Series) (ev : Event)
    (lv : List String)
    (hne : m.value ≠ [])
    (hnv : m.countMode ≠ CountMode.value)
    (hl : Metric.labelValues m ev = Except.ok lv) :
    Counter.HandleEvent m s ev =
      match scanTree asAny ev.record m.value with
      | .ok _ =>
        if m.countMode = CountMode.exist then Except.ok (s.inc lv) else Except.ok s
      | .error _ =>
        if m.countMode = CountMode.non_exist then Except.ok (s.inc lv)
        else Except.ok s := by
  simp only [Counter.HandleEvent, hl]
  rw [if_neg hne, if_neg hnv]

theorem filter_length_partition {α : Type} (p : α → Bool) : ∀ l : List α,
    (l.filter p).length + (l.filter (fun a => ! p a)).length = l.length := by
  intro l
  induction l with
  | nil => rfl
  | cons a l ih =>
    cases hpa : p a <;> simp [List.filter_cons, hpa, ← ih] <;> omega

theorem runCounter_exist_total (m : Metric) (hne : m.value ≠ []) :
    ∀ (evs : List Event) (s : Series),
      (∀ ev ∈ evs, ∃ lv, Metric.labelValues m ev = Except.ok lv) →
      Series.total (runCounter { m with countMode := CountMode.exist } s evs)
        = Series.total s + ((evs.filter (fun ev => scanSucceeds m ev)).length : ℚ) := by
  intro evs
  induction evs with
  | nil => intro s _; simp [runCounter]
  | cons ev evs ih =>
    intro s h
    obtain ⟨lv, hlv⟩ := h ev (List.mem_cons_self ev evs)
    have hlv2 : Metric.labelValues { m with countMode := CountMode.exist } ev =
        Except.ok lv := by
      rw [Metric.labelValues_countMode]; exact hlv
    have hne2 : ({ m with countMode := CountMode.exist } : Metric).value ≠ [] := hne
    have hnv2 : ({ m with countMode := CountMode.exist } : Metric).countMode ≠
        CountMode.value := by
      rw [Metric.countMode_set]; intro hx; cases hx
    have hstep := counter_untyped_step { m with countMode := CountMode.exist } s ev lv
      hne2 hnv2 hlv2
    rw [Metric.value_countMode, Metric.countMode_set] at hstep
    have hrest := fun ev2 hev2 => h ev2 (List.mem_cons_of_mem ev hev2)
    cases hscan : scanTree asAny ev.record m.value with
    | ok w =>
      rw [hscan] at hstep
      rw [if_pos rfl] at hstep
      have hsucc : scanSucceeds m ev = true := by
        rw [scanSucceeds, hscan]
      simp only [runCounter, hstep]
      rw [ih (s.inc lv) hrest, Series.total_inc]
      simp only [List.filter_cons, hsucc, if_true, ite_true, List.length_cons]
      push_cast
      ring
    | error e =>
      rw [hscan] at hstep
      rw [if_neg (by decide : ¬ (CountMode.exist = CountMode.non_exist))] at hstep
      have hsucc : scanSucceeds m ev = false := by
        rw [scanSucceeds, hscan]
      simp only [runCounter, hstep]
      rw [ih s hrest]
      simp only [List.filter_cons, hsucc, if_false, ite_false, Bool.false_eq_true]

theorem runCounter_nonexist_total (m : Metric) (hne : m.value ≠ []) :
    ∀ (evs : List Event) (s : Series),
      (∀ ev ∈ evs, ∃ lv, Metric.labelValues m ev = Except.ok lv) →
      Series.total (runCounter { m with countMode := CountMode.non_exist } s evs)
        = Series.total s
          + ((evs.filter (fun ev => ! scanSucceeds m ev)).length : ℚ) := by
  intro evs
  induction evs with
  | nil => intro s _; simp [runCounter]
  | cons ev evs ih =>
    intro s h
    obtain ⟨lv, hlv⟩ := h ev (List.mem_cons_self ev evs)
    have hlv2 : Metric.labelValues { m with countMode := CountMode.non_exist } ev =
        Except.ok lv := by
      rw [Metric.labelValues_countMode]; exact hlv
    have hne2 : ({ m with countMode := CountMode.non_exist } : Metric).value ≠ [] := hne
    have hnv2 : ({ m with countMode := CountMode.non_exist } : Metric).countMode ≠
        CountMode.value := by
      rw [Metric.countMode_set]; intro hx; cases hx
    have hstep := counter_untyped_step { m with countMode := CountMode.non_exist } s ev
      lv hne2 hnv2 hlv2
    rw [Metric.value_countMode, Metric.countMode_set] at hstep
    have hrest := fun ev2 hev2 => h ev2 (List.mem_cons_of_mem ev hev2)
    cases hscan : scanTree asAny ev.record m.value with
    | ok w =>
      rw [hscan] at hstep
      rw [if_neg (by decide : ¬ (CountMode.non_exist = CountMode.exist))] at hstep
      have hsucc : scanSucceeds m ev = true := by
        rw [scanSucceeds, hscan]
      simp only [runCounter, hstep]
      rw [ih s hrest]
      simp only [List.filter_cons, hsucc, Bool.not_true, if_false, ite_false,
        Bool.false_eq_true]
    | error e =>
      rw [hscan] at hstep
      rw [if_pos rfl] at hstep
      have hsucc : scanSucceeds m ev = false := by
        rw [scanSucceeds, hscan]
      simp only [runCounter, hstep]
      rw [ih (s.inc lv) hrest, Series.total_inc]
      simp only [List.filter_cons, hsucc, Bool.not_false, if_true, ite_true,
        List.length_cons]
      push_cast
      ring

/-- Claim C7: over the same event stream (labels always resolving), an
`exist`-mode counter accumulates one increment per event where the untyped
scan of the value path succeeds (M of N), a `non_exist`-mode counter one per
event where it fails, and the two counts partition the stream
(M + (N − M) = N). -/
theorem counter_exist_nonexist_complementary (m : Metric) (s : Series)
    (evs : List Event)
    (hne : m.value ≠ [])
    (hl : ∀ ev ∈ evs, ∃ lv, Metric.labelValues m ev = Except.ok lv) :
    Series.total (runCounter { m with countMode := CountMode.exist } s evs)
        = Series.total s + ((evs.filter (fun ev => scanSucceeds m ev)).length : ℚ)
    ∧ Series.total (runCounter { m with countMode := CountMode.non_exist } s evs)
        = Series.total s + ((evs.filter (fun ev => ! scanSucceeds m ev)).length : ℚ)
    ∧ (evs.filter (fun ev => scanSucceeds m ev)).length
        + (evs.filter (fun ev => ! scanSucceeds m ev)).length = evs.length :=
  ⟨runCounter_exist_total m hne evs s hl,
   runCounter_nonexist_total m hne evs s hl,
   filter_length_partition (fun ev => scanSucceeds m ev) evs⟩

/-- Witness for C7: a 3-event stream with the value path present in 2
events; the exist-mode run accumulates 2, the non_exist-mode run 1. -/
theorem counter_exist_nonexist_complementary_witness :
    ((exC7Events.filter (fun ev => scanSucceeds exC7Metric ev)).length = 2
      ∧ (exC7Events.filter (fun ev => ! scanSucceeds exC7Metric ev)).length = 1
      ∧ exC7Events.length = 3)
    ∧ Series.total (runCounter { exC7Metric with countMode := CountMode.exist }
          [] exC7Events)
        = Series.total ([] : Series)
          + ((exC7Events.filter (fun ev => scanSucceeds exC7Metric ev)).length : ℚ)
    ∧ Series.total (runCounter { exC7Metric with countMode := CountMode.non_exist }
          [] exC7Events)
        = Series.total ([] : Series)
          + ((exC7Events.filter (fun ev => ! scanSucceeds exC7Metric ev)).length : ℚ) := by
  refine ⟨⟨rfl, rfl, rfl⟩, ?_, ?_⟩
  · exact (counter_exist_nonexist_complementary exC7Metric [] exC7Events (by decide)
      (fun ev _ => ⟨[], rfl⟩)).1
  · exact (counter_exist_nonexist_complementary exC7Metric [] exC7Events (by decide)
      (fun ev _ => ⟨[], rfl⟩)).2.1

/-- Claim C8: `Metric.scan` swallows exactly the resolution errors whose
message begins with "invalid path" (returning the zero value instead),
propagating every other error; hence a label with an absent path resolves
to the empty string at its position in the sequence, while label resolution
as a whole succeeds exactly when no label hits a propagated (hard) error —
no partial label list is ever produced. -/
theorem scan_soft_error_policy (m : Metric) (ev : Event) :
    (∀ {α : Type} (conv : JValue → Option α) (z : α) (p : ScanPath) (e : Err),
        scanTree conv ev.record p = Except.error e →
        Metric.scan conv z ev p =
          (if strPre "invalid path".data e.message.data then Except.ok z
           else Except.error e))
    ∧ (∀ {α : Type} (conv : JValue → Option α) (z : α) (p : ScanPath) (a : α),
        scanTree conv ev.record p = Except.ok a →
        Metric.scan conv z ev p = Except.ok a)
    ∧ (∀ (p : ScanPath) (e : Err),
        scanTree asString ev.record p = Except.error e →
        strPre "invalid path".data e.message.data = true →
        Metric.scan asString "" ev p = Except.ok "")
    ∧ (∀ vs, Metric.labelValues m ev = Except.ok vs →
        ∀ i (hi : i < m.labelKeys.length) (hv : i < vs.length),
          ∀ e, scanTree asString ev.record
              (lookupLabel m.labels (m.labelKeys.get ⟨i, hi⟩)) = Except.error e →
            strPre "invalid path".data e.message.data = true →
            vs.get ⟨i, hv⟩ = "")
    ∧ ((∃ vs, Metric.labelValues m ev = Except.ok vs) ↔
        ∀ k ∈ m.labelKeys, ∃ s,
          Metric.scan asString "" ev (lookupLabel m.labels k) = Except.ok s) := by
  refine ⟨?_, ?_, ?_, ?_, ?_⟩
  · intro α conv z p e he
    exact Metric.scan_tree_error conv z ev p e he
  · intro α conv z p a ha
    exact Metric.scan_tree_ok conv z ev p a ha
  · intro p e he hsoft
    rw [Metric.scan_tree_error asString "" ev p e he, if_pos hsoft]
  · intro vs hvs i hi hv e he hsoft
    rw [Metric.labelValues] at hvs
    have h1 := labelValuesGo_get m ev m.labelKeys vs hvs i hi hv
    have h2 : Metric.scan asString "" ev
        (lookupLabel m.labels (m.labelKeys.get ⟨i, hi⟩)) = Except.ok "" := by
      rw [Metric.scan_tree_error asString "" ev _ e he, if_pos hsoft]
    rw [h1] at h2
    simpa using h2
  · simp only [Metric.labelValues]
    exact labelValuesGo_ok_iff m ev m.labelKeys

/-- Witness for C8: an absent label path resolves to the empty string (both
at the scan and in the resolved sequence), while a present field of the
wrong type for a string target is a propagated hard error. -/
theorem scan_soft_error_policy_witness :
    Metric.scan asString "" exC8Event ["missing"] = Except.ok ""
    ∧ Metric.labelValues exC8Metric exC8Event = Except.ok [""]
    ∧ Metric.scan asString "" exC8Event ["num"] =
        Except.error (Err.invalidType (String.intercalate "/" ["num"])) := by
  refine ⟨?_, rfl, ?_⟩
  · exact (scan_soft_error_policy exC8Metric exC8Event).2.2.1 ["missing"]
      (Err.invalidPath "missing") rfl (by decide)
  · rw [(scan_soft_error_policy exC8Metric exC8Event).1 asString ""
      ["num"] (Err.invalidType (String.intercalate "/" ["num"])) rfl]
    rfl

/-- Claim C9: every hard error produced inside a handler update (hard path
resolution failure on the value or on a label, negative counter value)
propagates out of the update, and the dispatcher logs every propagated
error; the only resolution failures ever dropped without surfacing are the
soft "invalid path" (path absent) ones in the untyped existence check. -/
theorem no_silent_error_drop (p : OutPrometheus) (m : Metric) (s : Series)
    (ev : Event) :
    (∀ hd ∈ p.handlers, ∀ e, Handler.handleEvent hd ev = Except.error e →
        e ∈ (OutPrometheus.Encode p ev).1.logged)
    ∧ (∀ e, Metric.scan asFloat 0 ev m.value = Except.error e →
        Gauge.HandleEvent m s ev = Except.error e)
    ∧ (∀ v e, Metric.scan asFloat 0 ev m.value = Except.ok v →
        Metric.labelValues m ev = Except.error e →
        Gauge.HandleEvent m s ev = Except.error e)
    ∧ (∀ e, Metric.labelValues m ev = Except.error e →
        Counter.HandleEvent m s ev = Except.error e)
    ∧ (∀ lvals, m.value ≠ [] → m.countMode = CountMode.value →
        Metric.labelValues m ev = Except.ok lvals →
        (∀ e, Metric.scan asFloat 0 ev m.value = Except.error e →
            Counter.HandleEvent m s ev = Except.error e)
        ∧ (∀ v, Metric.scan asFloat 0 ev m.value = Except.ok v → v < 0 →
            Counter.HandleEvent m s ev = Except.error Err.negativeCounter))
    ∧ (∀ e, scanTree asAny ev.record m.value = Except.error e →
        strPre "invalid path".data e.message.data = true) := by
  refine ⟨?_, ?_, ?_, ?_, ?_, ?_⟩
  · intro hd hmem e he
    simp only [OutPrometheus.Encode]
    rw [encodeGo_eq]
    refine List.mem_append_right _ (List.mem_filterMap.mpr ⟨hd, hmem, ?_⟩)
    rw [he]
  · intro e he
    simp only [Gauge.HandleEvent, he]
  · intro v e hv he
    simp only [Gauge.HandleEvent, hv, he]
  · intro e he
    simp only [Counter.HandleEvent, he]
  · intro lvals hne hmode hl
    constructor
    · intro e he
      simp only [Counter.HandleEvent, hl]
      rw [if_neg hne, if_pos hmode, he]
    · intro v hv hneg
      simp only [Counter.HandleEvent, hl, hv]
      rw [if_neg hne, if_pos hmode, if_pos hneg]
  · intro e he
    obtain ⟨k, hk⟩ := scanTree_asAny_error ev.record m.value e he
    exact (soft_iff_invalidPath e).mpr ⟨k, hk⟩

/-- Witness for C9: with three handlers where the second fails on a
negative counter value, the error is found in the dispatcher's log. -/
theorem no_silent_error_drop_witness :
    Handler.handleEvent (Handler.counter exC9MetricBad []) exC9Event =
        Except.error Err.negativeCounter
    ∧ Err.negativeCounter ∈ (OutPrometheus.Encode exC9Plugin exC9Event).1.logged := by
  constructor
  · rfl
  · exact (no_silent_error_drop exC9Plugin exC9MetricBad [] exC9Event).1
      (Handler.counter exC9MetricBad [])
      (by simp [exC9Plugin])
      Err.negativeCounter rfl

/-- Claim C10: a gauge whose (non-empty) value path is absent from the
event still updates: the soft error is swallowed, the float zero value 0
is substituted, and the series value for the resolved label combination is
set to 0. -/
theorem gauge_soft_miss_sets_zero (m : Metric) (s : Series) (ev : Event)
    (e : Err) (lvals : List String)
    (hne : m.value ≠ [])
    (hv : scanTree asFloat ev.record m.value = Except.error e)
    (hsoft : strPre "invalid path".data e.message.data = true)
    (hl : Metric.labelValues m ev = Except.ok lvals) :
    Gauge.HandleEvent m s ev = Except.ok (s.set lvals 0)
    ∧ Series.get (s.set lvals 0) lvals = 0 := by
  constructor
  · have hscan : Metric.scan asFloat 0 ev m.value = Except.ok 0 := by
      rw [Metric.scan_tree_error asFloat 0 ev m.value e hv, if_pos hsoft]
    simp only [Gauge.HandleEvent, hscan, hl]
  · exact Series.get_set s lvals 0

/-- Witness for C10: a gauge over `cpu/load` applied to an event without
`cpu` sets the series to 0 and succeeds. -/
theorem gauge_soft_miss_sets_zero_witness :
    Gauge.HandleEvent exC10Metric [] exC10Event = Except.ok (Series.set [] [] 0)
    ∧ Series.get (Series.set [] [] 0) [] = 0 :=
  ⟨(gauge_soft_miss_sets_zero exC10Metric [] exC10Event (Err.invalidPath "cpu") []
      (by decide) rfl (by decide) rfl).1,
   (gauge_soft_miss_sets_zero exC10Metric [] exC10Event (Err.invalidPath "cpu") []
      (by decide) rfl (by decide) rfl).2⟩
